import Mathlib

/-!
Verification development for the account-classification utility module
(`src/utils/utils.py`): fee-rate computation, asset registry constants,
price cache, date-range conversion and the retry-based price fetcher,
shallowly embedded in Lean 4.

Floating-point column values are modelled as exact rationals extended with
the IEEE special values (`+inf`, `-inf`, `NaN`) that the numpy/pandas code
can produce through division by zero; machine rounding is abstracted away.
-/

set_option autoImplicit false

namespace AccountClassification

/-- An extended float value as produced by the pandas arithmetic in
`calculate_fee_rate`: a finite (exact rational) number, `+inf`, `-inf`, or `NaN`. -/
inductive XFloat where
  | num (q : ℚ)
  | posInf
  | negInf
  | nan
  deriving DecidableEq, Repr

/-- IEEE-style elementwise division of the fee column by the amount column:
the quotient when the denominator is nonzero; `±inf` for a nonzero numerator over
(positive) zero; `NaN` for `0/0`. -/
def xdiv (a b : ℚ) : XFloat :=
  if b ≠ 0 then XFloat.num (a / b)
  else if 0 < a then XFloat.posInf
  else if a < 0 then XFloat.negInf
  else XFloat.nan

/-- Per-row semantics of `np.select(condlist, choicelist, default)`: the choice
of the first condition that holds, else the default. -/
def npSelect : List Bool → List XFloat → XFloat → XFloat
  | [], _, default => default
  | _ :: _, [], default => default
  | c :: cs, x :: xs, default => if c then x else npSelect cs xs default

/-- Stage `np.select` of `calculate_fee_rate` for one row, with the condition list `[amount == 0 ∧ fee == 0, amount == 0 ∧ fee > 0, amount ≥ 0]`,
choice list `[0, inf, fee / amount]` and default `inf`. -/
def fee_rate_select (amount fee : ℚ) : XFloat :=
  npSelect
    [decide (amount = 0) && decide (fee = 0),
     decide (amount = 0) && decide (0 < fee),
     decide (0 ≤ amount)]
    [XFloat.num 0, XFloat.posInf, xdiv fee amount]
    XFloat.posInf

/-- Post-pass `.replace([np.inf, -np.inf, np.nan], np.inf)` on the new column:
every non-finite value becomes `+inf`, finite values are untouched. -/
def replaceNonFinite : XFloat → XFloat
  | XFloat.num q => XFloat.num q
  | _ => XFloat.posInf

/-- Fee rate of a single row: select stage followed by the post-pass. -/
def fee_rate_record (amount fee : ℚ) : XFloat :=
  replaceNonFinite (fee_rate_select amount fee)

/-- A DataFrame as consumed by `calculate_fee_rate`: the two columns the
function reads, plus the remaining columns it never touches (of an arbitrary
value type `α`). -/
structure DataFrame (α : Type) where
  amount : List ℚ
  fee_computed : List ℚ
  other : List (String × List α)
  deriving DecidableEq

/-- The result DataFrame: all the original columns plus the new `fee_rate`. -/
structure RatedDataFrame (α : Type) extends DataFrame α where
  fee_rate : List XFloat
  deriving DecidableEq

/-- Embedding of `calculate_fee_rate` (src/utils/utils.py lines 28-62): works on a copy of
the input frame and adds the `fee_rate` column computed rowwise by
`np.select` followed by the non-finite replacement pass. -/
def calculate_fee_rate {α : Type} (df : DataFrame α) : RatedDataFrame α :=
  { df with fee_rate := List.zipWith fee_rate_record df.amount df.fee_computed }

/-- Registry dict `SUPPORTED_ASSETS`, in source insertion order. -/
def SUPPORTED_ASSETS : List (String × ℕ) :=
  [("usdc", 31566704), ("hog", 3178895177), ("ora", 1284444444), ("talgo", 2537013734),
   ("vote", 452399768), ("gobtc", 386192725), ("xusd", 760037151), ("tiny", 2200000000),
   ("alpha", 2726252423), ("opul", 287867876), ("finite", 400593267), ("niko", 1265975021),
   ("pow", 2994233666), ("xalgo", 1134696561), ("coop", 796425061), ("vest", 700965019),
   ("goeth", 386195940), ("compx", 1732165149), ("usdt", 312769), ("sparky", 3054226103)]

/-- Source set `SUPPORTED_ASSET_IDS = set(SUPPORTED_ASSETS.values())`. -/
def SUPPORTED_ASSET_IDS : Finset ℕ := (SUPPORTED_ASSETS.map Prod.snd).toFinset

/-- Source constant `ASSET_KEEP_NATIVE = 971381860` (keep native amount). -/
def ASSET_KEEP_NATIVE : ℕ := 971381860

/-- Source constant `ASSET_USE_USDC = 971384592` (use USDC multiplier). -/
def ASSET_USE_USDC : ℕ := 971384592

/-- Source list `WC_ASSETS` (wrapped assets). -/
def WC_ASSETS : List ℕ := [127746157, 127745593, 127746786, 3145862805]

/-- Source constant `ASSET_USE_USDC_SCALED = 849191641` (fixed scaling factor). -/
def ASSET_USE_USDC_SCALED : ℕ := 849191641

/-- Source constant `USDC_SCALING_FACTOR = 0.01484306067` as an exact rational. -/
def USDC_SCALING_FACTOR : ℚ := 1484306067 / 100000000000

/-- The module-level `_price_cache` dict: an association list from asset id to
the stored optional price. A key can be present with value `none` (fetch
attempted, no data) or absent altogether. -/
abbrev Cache := List (ℕ × Option ℚ)

/-- Python dict membership + subscript, as one total lookup:
`some v` when the key is present bound to `v`, `none` when absent. -/
def cacheLookup : Cache → ℕ → Option (Option ℚ)
  | [], _ => none
  | (k, v) :: rest, id => if k = id then some v else cacheLookup rest id

/-- Python dict assignment `_price_cache[asset_id] = value`: replace the
binding when the key is present, append it otherwise. -/
def cacheSet : Cache → ℕ → Option ℚ → Cache
  | [], id, v => [(id, v)]
  | (k, w) :: rest, id, v =>
      if k = id then (id, v) :: rest else (k, w) :: cacheSet rest id v

/-- Embedding of `get_cached_avg_price` (src/utils/utils.py lines 161-174): return the
cached value when the key is present, `None` otherwise. A pure lookup — the
embedding takes no fetch oracle, mirroring the source which only reads the
dict and never performs I/O. -/
def get_cached_avg_price (cache : Cache) (asset_id : ℕ) : Option ℚ :=
  match cacheLookup cache asset_id with
  | some v => v
  | none => none

/-- Embedding of `clear_price_cache` (src/utils/utils.py lines 210-212). -/
def clear_price_cache (_cache : Cache) : Cache := []

/-- The body of one HTTP response as seen by `get_avg_close_price` after
`response.json()`: a parse failure, JSON `null`, or a candle array carrying
the optional close field of each candle (`none` when the
field is missing or null; all other fields are ignored by the source). -/
inductive JsonBody where
  | malformed
  | null
  | candles (closes : List (Option ℚ))
  deriving DecidableEq, Repr

/-- The outcome of one `requests.get` attempt: a transport-level failure
(timeout, connection error — `requests.RequestException`), or an HTTP
response with a status code and a body. -/
inductive FetchAttempt where
  | transportError
  | http (status : ℕ) (body : JsonBody)
  deriving DecidableEq, Repr

/-- What one loop iteration of `get_avg_close_price` does with a response:
sleep and retry (the 429 branch), or terminate with a result. -/
inductive StepResult where
  | retry (sleep : ℚ)
  | done (result : Option ℚ)
  deriving DecidableEq, Repr

/-- One iteration of the retry loop body (src/utils/utils.py lines 126-155):
a 429 status sleeps `base_delay * 2 ^ attempt` and retries; any other error
status makes `raise_for_status` raise, handled by returning `None`; a raising
`response.json()` and transport errors return `None`; an empty or missing
candle list returns `None`; otherwise the mean of the non-null closes is
returned, `None` when every close is null. -/
def attemptStep (base_delay : ℚ) (attempt : ℕ) : FetchAttempt → StepResult
  | FetchAttempt.transportError => StepResult.done none
  | FetchAttempt.http status body =>
      if status = 429 then StepResult.retry (base_delay * 2 ^ attempt)
      else if 400 ≤ status then StepResult.done none
      else
        match body with
        | JsonBody.malformed => StepResult.done none
        | JsonBody.null => StepResult.done none
        | JsonBody.candles closes =>
            if closes.isEmpty then StepResult.done none
            else
              let close_prices := closes.filterMap id
              if close_prices.isEmpty then StepResult.done none
              else StepResult.done (some (close_prices.sum / close_prices.length))

/-- The retry loop `for attempt in range(max_retries)`, driven by an oracle
`resp` giving the outcome of the attempt-th request. Returns the list of
back-off sleeps performed, in order, together with the result;
falling off the end of the loop returns `None`. -/
def fetchLoop (resp : ℕ → FetchAttempt) (base_delay : ℚ) (attempt : ℕ) :
    ℕ → List ℚ × Option ℚ
  | 0 => ([], none)
  | fuel + 1 =>
      match attemptStep base_delay attempt (resp attempt) with
      | StepResult.done r => ([], r)
      | StepResult.retry w =>
          let rest := fetchLoop resp base_delay (attempt + 1) fuel
          (w :: rest.1, rest.2)

/-- Embedding of `get_avg_close_price` (src/utils/utils.py lines 104-158) over a response
oracle: the loop starting at attempt 0 with `max_retries` iterations left. -/
def get_avg_close_price (resp : ℕ → FetchAttempt) (max_retries : ℕ) (base_delay : ℚ) :
    List ℚ × Option ℚ :=
  fetchLoop resp base_delay 0 max_retries

/-- Loop body of `fetch_all_supported_assets` over the registry entries,
carrying the 1-based index `idx` and the registry size for the
`if idx < len(SUPPORTED_ASSETS)` pacing check. Returns the ids fetched in
order, the pacing sleeps performed, and the final cache. -/
def fetchAllGo (fetch : ℕ → Option ℚ) (delay : ℚ) (total : ℕ) :
    List (String × ℕ) → ℕ → Cache → List ℕ × List ℚ × Cache
  | [], _, cache => ([], [], cache)
  | (_, asset_id) :: rest, idx, cache =>
      let cache2 := cacheSet cache asset_id (fetch asset_id)
      let pacing : List ℚ := if idx < total then [delay] else []
      let next := fetchAllGo fetch delay total rest (idx + 1) cache2
      (asset_id :: next.1, pacing ++ next.2.1, next.2.2)

/-- Embedding of `fetch_all_supported_assets` (src/utils/utils.py lines 177-207) over a
fetch oracle standing for `get_avg_close_price`: enumerate
`SUPPORTED_ASSETS.items()` from index 1, write each result into the cache,
sleep `delay` after each asset except the last, and return the final cache
(the source returns `_price_cache.copy()`, a value snapshot). -/
def fetch_all_supported_assets (fetch : ℕ → Option ℚ) (delay : ℚ) (cache : Cache) :
    List ℕ × List ℚ × Cache :=
  fetchAllGo fetch delay SUPPORTED_ASSETS.length SUPPORTED_ASSETS 1 cache

/-- A calendar date as parsed by `datetime.strptime(s, "%Y-%m-%d")`. -/
structure Date where
  year : ℕ
  month : ℕ
  day : ℕ
  deriving DecidableEq, Repr

/-- The proleptic-Gregorian leap-year rule used by `datetime`. -/
def isLeapYear (y : ℕ) : Bool :=
  (y % 4 = 0 && y % 100 ≠ 0) || y % 400 = 0

/-- Number of days in a month of a given year (the datetime calendar). -/
def daysInMonth (y m : ℕ) : ℕ :=
  if m = 2 then (if isLeapYear y then 29 else 28)
  else if m = 4 ∨ m = 6 ∨ m = 9 ∨ m = 11 then 30
  else 31

/-- A date `strptime` accepts: a year in the datetime range 1..9999, a real
month, and a day within that month. -/
def ValidDate (d : Date) : Prop :=
  1 ≤ d.year ∧ d.year ≤ 9999 ∧ 1 ≤ d.month ∧ d.month ≤ 12 ∧
    1 ≤ d.day ∧ d.day ≤ daysInMonth d.year d.month

instance (d : Date) : Decidable (ValidDate d) := by
  unfold ValidDate; infer_instance

/-- Days in all years strictly before year `y` (CPython helper `_days_before_year`). -/
def daysBeforeYear (y : ℕ) : ℕ :=
  365 * (y - 1) + (y - 1) / 4 - (y - 1) / 100 + (y - 1) / 400

/-- Days in year `y` strictly before month `m` (CPython helper `_days_before_month`:
cumulative table plus the leap-day adjustment). -/
def daysBeforeMonth (y m : ℕ) : ℕ :=
  [0, 31, 59, 90, 120, 151, 181, 212, 243, 273, 304, 334].getD (m - 1) 0 +
    (if 2 < m ∧ isLeapYear y then 1 else 0)

/-- Python `date.toordinal()`: day number with `0001-01-01` as day 1. -/
def toordinal (d : Date) : ℕ :=
  daysBeforeYear d.year + daysBeforeMonth d.year d.month + d.day

/-- Python `datetime.timestamp()` of midnight UTC of a date: seconds since the Unix
epoch, whose ordinal `toordinal ⟨1970, 1, 1⟩ = 719163`. -/
def timestampOfMidnight (d : Date) : ℤ :=
  ((toordinal d : ℤ) - 719163) * 86400

/-- Python `datetime.timestamp()` of an arbitrary UTC wall-clock time on a date. -/
def timestampOfDateTime (d : Date) (hour minute second : ℕ) : ℤ :=
  timestampOfMidnight d + hour * 3600 + minute * 60 + second

/-- Embedding of `date_to_unix_timestamp` (src/utils/utils.py lines 84-101): the start date
at midnight UTC, and the end date shifted by `+ timedelta(days=1) -
timedelta(seconds=1)` — on a UTC-aware datetime this moves the instant by
exactly `86400 - 1` seconds. -/
def date_to_unix_timestamp (start_date end_date : Date) : ℤ × ℤ :=
  (timestampOfMidnight start_date, timestampOfMidnight end_date + 86400 - 1)

/-- The calendar successor of a date (used to state the "midnight of the day
after, minus one second" reading of the end timestamp). -/
def nextDay (d : Date) : Date :=
  if d.day < daysInMonth d.year d.month then ⟨d.year, d.month, d.day + 1⟩
  else if d.month < 12 then ⟨d.year, d.month + 1, 1⟩
  else ⟨d.year + 1, 1, 1⟩

/-- Modelled from the spec: the AmountNormalizer component (spec §4.5) has no
implementation under `src/` — only its special-case constants
(`ASSET_KEEP_NATIVE`, `ASSET_USE_USDC`, `WC_ASSETS`, `ASSET_USE_USDC_SCALED`,
`USDC_SCALING_FACTOR`) appear in `src/utils/utils.py`. Following the wording
of the spec: native-keep ids pass the raw amount through; USDC-priced ids multiply
by the cached USDC price; fixed-scaled ids multiply by the fixed factor;
wrapped ids delegate to a caller-supplied valuation; any other id must be a
supported asset and multiplies by its cached price, and a `None`/absent cache
entry makes the result the explicit missing-value marker `none` (never a
silent 0 or 1). -/
def normalize (cache : Cache) (wrappedValuation : ℕ → ℚ → Option ℚ)
    (asset_id : ℕ) (raw_amount : ℚ) : Option ℚ :=
  if asset_id = ASSET_KEEP_NATIVE then some raw_amount
  else if asset_id = ASSET_USE_USDC then
    (get_cached_avg_price cache 31566704).map (fun p => raw_amount * p)
  else if asset_id = ASSET_USE_USDC_SCALED then
    some (raw_amount * USDC_SCALING_FACTOR)
  else if asset_id ∈ WC_ASSETS then wrappedValuation asset_id raw_amount
  else if asset_id ∈ SUPPORTED_ASSET_IDS then
    (get_cached_avg_price cache asset_id).map (fun p => raw_amount * p)
  else none

/-- The four special-case id sets of the registry, as finite sets. -/
def nativeKeepSet : Finset ℕ := {ASSET_KEEP_NATIVE}

/-- The USDC-priced special-case set. -/
def usdcPricedSet : Finset ℕ := {ASSET_USE_USDC}

/-- The fixed-scaled special-case set. -/
def fixedScaledSet : Finset ℕ := {ASSET_USE_USDC_SCALED}

/-- The wrapped special-case set. -/
def wrappedSet : Finset ℕ := WC_ASSETS.toFinset

/-! ## Helper lemmas -/

theorem fee_rate_select_eq (a f : ℚ) :
    fee_rate_select a f =
      if a = 0 ∧ f = 0 then XFloat.num 0
      else if a = 0 ∧ 0 < f then XFloat.posInf
      else if 0 ≤ a then xdiv f a
      else XFloat.posInf := by
  simp only [fee_rate_select, npSelect, Bool.and_eq_true, decide_eq_true_eq]

theorem replaceNonFinite_cases (x : XFloat) :
    replaceNonFinite x = XFloat.posInf ∨ ∃ q : ℚ, replaceNonFinite x = XFloat.num q := by
  cases x <;> simp [replaceNonFinite]

theorem fetchLoop_all429 (resp : ℕ → FetchAttempt) (bd : ℚ) :
    ∀ (fuel attempt : ℕ),
      (∀ i, attempt ≤ i → i < attempt + fuel → ∃ b, resp i = FetchAttempt.http 429 b) →
      fetchLoop resp bd attempt fuel =
        ((List.range fuel).map (fun i => bd * 2 ^ (attempt + i)), none) := by
  intro fuel
  induction fuel with
  | zero => intro attempt _; simp [fetchLoop]
  | succ n ih =>
      intro attempt h
      obtain ⟨b, hb⟩ := h attempt (le_refl attempt) (by omega)
      have hrest := ih (attempt + 1) (fun i h1 h2 => h i (by omega) (by omega))
      have hfun : ((fun i => bd * 2 ^ (attempt + i)) ∘ Nat.succ) =
          fun i => bd * 2 ^ (attempt + 1 + i) := by
        funext i
        have : attempt + (Nat.succ i) = attempt + 1 + i := by omega
        simp [Function.comp, ← this]
      simp only [fetchLoop, hb, attemptStep, if_pos rfl, hrest,
        List.range_succ_eq_map, List.map_cons, List.map_map, hfun]
      simp

theorem cacheLookup_set_self (c : Cache) (a : ℕ) (v : Option ℚ) :
    cacheLookup (cacheSet c a v) a = some v := by
  induction c with
  | nil => simp [cacheSet, cacheLookup]
  | cons p rest ih =>
      obtain ⟨k, w⟩ := p
      by_cases h : k = a
      · simp [cacheSet, cacheLookup, h]
      · simp [cacheSet, cacheLookup, h, ih]

theorem cacheLookup_set_ne (c : Cache) {a b : ℕ} (v : Option ℚ) (h : b ≠ a) :
    cacheLookup (cacheSet c a v) b = cacheLookup c b := by
  have hab : ¬ a = b := fun hh => h hh.symm
  induction c with
  | nil => simp [cacheSet, cacheLookup, hab]
  | cons p rest ih =>
      obtain ⟨k, w⟩ := p
      by_cases hk : k = a
      · subst hk
        simp [cacheSet, cacheLookup, hab]
      · simp [cacheSet, cacheLookup, hk, ih]

theorem fetchAllGo_calls (fetch : ℕ → Option ℚ) (delay : ℚ) (total : ℕ) :
    ∀ (assets : List (String × ℕ)) (idx : ℕ) (cache : Cache),
      (fetchAllGo fetch delay total assets idx cache).1 = assets.map Prod.snd := by
  intro assets
  induction assets with
  | nil => intro idx cache; rfl
  | cons p rest ih =>
      intro idx cache
      obtain ⟨nm, k⟩ := p
      simp [fetchAllGo, ih]

theorem fetchAllGo_sleeps (fetch : ℕ → Option ℚ) (delay : ℚ) (total : ℕ) :
    ∀ (assets : List (String × ℕ)) (idx : ℕ) (cache : Cache),
      idx + assets.length = total + 1 → 1 ≤ idx →
      (fetchAllGo fetch delay total assets idx cache).2.1 =
        List.replicate (assets.length - 1) delay := by
  intro assets
  induction assets with
  | nil => intro idx cache _ _; rfl
  | cons p rest ih =>
      intro idx cache hlen hidx
      obtain ⟨nm, k⟩ := p
      rcases rest with _ | ⟨q, rest2⟩
      · have : ¬ idx < total := by simp at hlen; omega
        simp [fetchAllGo, this]
      · have hlt : idx < total := by simp at hlen ⊢; omega
        have hih := ih (idx + 1) (cacheSet cache k (fetch k)) (by simp at hlen ⊢; omega)
          (by omega)
        show (if idx < total then [delay] else []) ++
            (fetchAllGo fetch delay total (q :: rest2) (idx + 1)
              (cacheSet cache k (fetch k))).2.1 =
          List.replicate (q :: rest2).length delay
        rw [if_pos hlt, hih]
        simp [List.replicate_succ]

theorem fetchAllGo_lookup_notmem (fetch : ℕ → Option ℚ) (delay : ℚ) (total : ℕ) :
    ∀ (assets : List (String × ℕ)) (idx : ℕ) (cache : Cache) (a : ℕ),
      a ∉ assets.map Prod.snd →
      cacheLookup (fetchAllGo fetch delay total assets idx cache).2.2 a =
        cacheLookup cache a := by
  intro assets
  induction assets with
  | nil => intro idx cache a _; rfl
  | cons p rest ih =>
      intro idx cache a ha
      obtain ⟨nm, k⟩ := p
      simp only [List.map_cons, List.mem_cons] at ha
      push_neg at ha
      simp only [fetchAllGo]
      rw [ih (idx + 1) _ a ha.2, cacheLookup_set_ne _ _ ha.1]

theorem fetchAllGo_lookup_mem (fetch : ℕ → Option ℚ) (delay : ℚ) (total : ℕ) :
    ∀ (assets : List (String × ℕ)) (idx : ℕ) (cache : Cache) (a : ℕ),
      a ∈ assets.map Prod.snd → (assets.map Prod.snd).Nodup →
      cacheLookup (fetchAllGo fetch delay total assets idx cache).2.2 a =
        some (fetch a) := by
  intro assets
  induction assets with
  | nil => intro idx cache a ha _; simp at ha
  | cons p rest ih =>
      intro idx cache a ha hnd
      obtain ⟨nm, k⟩ := p
      simp only [List.map_cons, List.mem_cons] at ha
      simp only [List.map_cons, List.nodup_cons] at hnd
      rcases ha with ha | ha
      · subst ha
        simp only [fetchAllGo]
        rw [fetchAllGo_lookup_notmem fetch delay total rest (idx + 1) _ a hnd.1,
          cacheLookup_set_self]
      · exact ih (idx + 1) _ a ha hnd.2

theorem isLeapYear_iff (y : ℕ) :
    isLeapYear y = true ↔ ((y % 4 = 0 ∧ ¬ y % 100 = 0) ∨ y % 400 = 0) := by
  simp [isLeapYear]

set_option maxHeartbeats 1000000 in
theorem daysBeforeYear_succ (y : ℕ) (hy : 1 ≤ y) :
    daysBeforeYear (y + 1) =
      daysBeforeYear y + 365 + (if isLeapYear y then 1 else 0) := by
  by_cases h : isLeapYear y
  · rw [if_pos h]
    simp only [isLeapYear, Bool.or_eq_true, Bool.and_eq_true, decide_eq_true_eq,
      bne_iff_ne, ne_eq] at h
    unfold daysBeforeYear
    omega
  · rw [if_neg h]
    simp only [isLeapYear, Bool.or_eq_true, Bool.and_eq_true, decide_eq_true_eq,
      bne_iff_ne, ne_eq] at h
    push_neg at h
    unfold daysBeforeYear
    omega

theorem daysBeforeMonth_succ (y m : ℕ) (h1 : 1 ≤ m) (h2 : m ≤ 11) :
    daysBeforeMonth y (m + 1) = daysBeforeMonth y m + daysInMonth y m := by
  interval_cases m <;> by_cases h : isLeapYear y <;>
    simp [daysBeforeMonth, daysInMonth, h]

theorem toordinal_nextDay (d : Date) (hd : ValidDate d) :
    toordinal (nextDay d) = toordinal d + 1 := by
  obtain ⟨hy1, hy2, hm1, hm2, hd1, hd2⟩ := hd
  unfold nextDay
  split_ifs with h1 h2
  · simp [toordinal]
    omega
  · have hday : d.day = daysInMonth d.year d.month := by omega
    simp only [toordinal]
    rw [daysBeforeMonth_succ d.year d.month hm1 (by omega)]
    omega
  · have hm : d.month = 12 := by omega
    have hday : d.day = 31 := by
      have h31 : daysInMonth d.year 12 = 31 := by simp [daysInMonth]
      rw [hm] at hd2 h1
      omega
    simp only [toordinal, hm, hday]
    rw [daysBeforeYear_succ d.year hy1]
    by_cases h : isLeapYear d.year <;> simp [daysBeforeMonth, h]

/-! ## Claims -/

/-- C1: for every fee record, `calculate_fee_rate` assigns `fee_rate` by the
first matching rule of the `np.select` stage — `0` when amount and fee are
both zero, `+inf` when the amount is zero and the fee positive, `fee/amount`
when the amount is non-negative, and `+inf` (the default) for negative
amounts — and in particular `amount = 100, fee_computed = 1` yields
`fee_rate = 0.01`; the frame-level function applies this rule rowwise. -/
theorem calculate_fee_rate_first_match :
    (∀ a f : ℚ, fee_rate_select a f =
      if a = 0 ∧ f = 0 then XFloat.num 0
      else if a = 0 ∧ 0 < f then XFloat.posInf
      else if 0 ≤ a then xdiv f a
      else XFloat.posInf)
    ∧ fee_rate_record 100 1 = XFloat.num (1 / 100)
    ∧ ∀ (α : Type) (df : DataFrame α),
        (calculate_fee_rate df).fee_rate =
          List.zipWith fee_rate_record df.amount df.fee_computed :=
  ⟨fee_rate_select_eq,
   by norm_num [fee_rate_record, fee_rate_select, npSelect, xdiv, replaceNonFinite],
   fun _ _ => rfl⟩

/-- C2 counterexample: the claim says `fee_rate` is never negative, but the
post-pass only rewrites non-finite values, so the finite input pair
`amount = 100, fee_computed = -1` produces the negative fee rate `-0.01`. -/
theorem fee_rate_negative_counterexample :
    fee_rate_record 100 (-1) = XFloat.num (-(1 / 100)) ∧ (-(1 / 100) : ℚ) < 0 := by
  norm_num [fee_rate_record, fee_rate_select, npSelect, xdiv, replaceNonFinite]

/-- C2 amended: for every finite input pair the fee rate is never `NaN` and
never `-inf`; and whenever `fee_computed` is non-negative, it is `+inf` or a
finite non-negative rational (a negative `fee_computed` over a positive
amount does yield a negative finite rate). -/
theorem fee_rate_range (a f : ℚ) :
    fee_rate_record a f ≠ XFloat.nan ∧ fee_rate_record a f ≠ XFloat.negInf ∧
      (0 ≤ f → fee_rate_record a f = XFloat.posInf ∨
        ∃ q : ℚ, 0 ≤ q ∧ fee_rate_record a f = XFloat.num q) := by
  refine ⟨?_, ?_, ?_⟩
  · rcases replaceNonFinite_cases (fee_rate_select a f) with h | ⟨q, h⟩ <;>
      simp [fee_rate_record, h]
  · rcases replaceNonFinite_cases (fee_rate_select a f) with h | ⟨q, h⟩ <;>
      simp [fee_rate_record, h]
  · intro hf
    rw [fee_rate_record, fee_rate_select_eq]
    split_ifs with h1 h2 h3
    · exact Or.inr ⟨0, le_refl 0, rfl⟩
    · exact Or.inl rfl
    · rcases eq_or_lt_of_le h3 with ha | ha
      · have hfpos : 0 < f := by
          rcases eq_or_lt_of_le hf with hf0 | hf0
          · exact absurd ⟨ha.symm, hf0.symm⟩ h1
          · exact hf0
        simp [xdiv, ← ha, hfpos, replaceNonFinite]
      · refine Or.inr ⟨f / a, div_nonneg hf (le_of_lt ha), ?_⟩
        simp [xdiv, ne_of_gt ha, replaceNonFinite]
    · exact Or.inl rfl

/-- C2 amended, witness at `amount = 100, fee_computed = 2`. -/
theorem fee_rate_range_witness :
    (0 : ℚ) ≤ 2 ∧ (fee_rate_record 100 2 = XFloat.posInf ∨
      ∃ q : ℚ, 0 ≤ q ∧ fee_rate_record 100 2 = XFloat.num q) :=
  ⟨by norm_num, (fee_rate_range 100 2).2.2 (by norm_num)⟩

/-- C3: `get_avg_close_price` retry state machine — every consecutive 429
sleeps `base_delay * 2 ^ attempt` and, only once `max_retries` attempts are
exhausted, the result is `None`; any other HTTP error status and any
transport error end the call immediately with `None` and no sleeps; three
429s with `base_delay = 1`, `max_retries = 3` sleep 1s, 2s, 4s and return
`None`. -/
theorem get_avg_close_price_retry_behavior :
    (∀ (resp : ℕ → FetchAttempt) (max_retries : ℕ) (bd : ℚ),
      (∀ i, i < max_retries → ∃ b, resp i = FetchAttempt.http 429 b) →
      get_avg_close_price resp max_retries bd =
        ((List.range max_retries).map (fun i => bd * 2 ^ i), none))
    ∧ (∀ (resp : ℕ → FetchAttempt) (max_retries : ℕ) (bd : ℚ) (s : ℕ) (b : JsonBody),
        0 < max_retries → resp 0 = FetchAttempt.http s b → 400 ≤ s → s ≠ 429 →
        get_avg_close_price resp max_retries bd = ([], none))
    ∧ (∀ (resp : ℕ → FetchAttempt) (max_retries : ℕ) (bd : ℚ),
        0 < max_retries → resp 0 = FetchAttempt.transportError →
        get_avg_close_price resp max_retries bd = ([], none))
    ∧ get_avg_close_price (fun _ => FetchAttempt.http 429 JsonBody.null) 3 1 =
        ([1, 2, 4], none) := by
  refine ⟨?_, ?_, ?_, ?_⟩
  · intro resp max_retries bd h
    have := fetchLoop_all429 resp bd max_retries 0 (fun i h1 h2 => h i (by omega))
    simpa [get_avg_close_price] using this
  · intro resp max_retries bd s b hpos h0 h400 hne
    obtain ⟨n, rfl⟩ : ∃ n, max_retries = n + 1 :=
      ⟨max_retries - 1, by omega⟩
    simp [get_avg_close_price, fetchLoop, h0, attemptStep, hne, h400]
  · intro resp max_retries bd hpos h0
    obtain ⟨n, rfl⟩ : ∃ n, max_retries = n + 1 :=
      ⟨max_retries - 1, by omega⟩
    simp [get_avg_close_price, fetchLoop, h0, attemptStep]
  · norm_num [get_avg_close_price, fetchLoop, attemptStep]

/-- C3, witness: three consecutive 429s at `base_delay = 1, max_retries = 3`
sleep 1s, 2s, 4s and yield `None`; a transport error ends immediately. -/
theorem get_avg_close_price_retry_behavior_witness :
    get_avg_close_price (fun _ => FetchAttempt.http 429 JsonBody.null) 3 1 =
      ((List.range 3).map (fun i => (1 : ℚ) * 2 ^ i), none) ∧
    get_avg_close_price (fun _ => FetchAttempt.transportError) 2 1 = ([], none) :=
  ⟨get_avg_close_price_retry_behavior.1 _ 3 1 (fun _ _ => ⟨JsonBody.null, rfl⟩),
   get_avg_close_price_retry_behavior.2.2.1 _ 2 1 (by norm_num) rfl⟩

/-- C4: on a successful HTTP response (status below 400, not 429) at the
first attempt, a missing (`null`) or empty candle list yields `None`; a
candle list whose `close` fields are all null yields `None`; otherwise the
result is the arithmetic mean of the non-null `close` fields. -/
theorem get_avg_close_price_success_path :
    ∀ (resp : ℕ → FetchAttempt) (max_retries : ℕ) (bd : ℚ) (s : ℕ),
      0 < max_retries → s < 400 → s ≠ 429 →
      ((resp 0 = FetchAttempt.http s JsonBody.null →
          get_avg_close_price resp max_retries bd = ([], none))
      ∧ (resp 0 = FetchAttempt.http s (JsonBody.candles []) →
          get_avg_close_price resp max_retries bd = ([], none))
      ∧ (∀ closes : List (Option ℚ),
          resp 0 = FetchAttempt.http s (JsonBody.candles closes) →
          closes.filterMap id = [] →
          get_avg_close_price resp max_retries bd = ([], none))
      ∧ (∀ closes : List (Option ℚ),
          resp 0 = FetchAttempt.http s (JsonBody.candles closes) →
          closes.filterMap id ≠ [] →
          get_avg_close_price resp max_retries bd =
            ([], some ((closes.filterMap id).sum / (closes.filterMap id).length)))) := by
  intro resp max_retries bd s hpos hlt hne
  obtain ⟨n, rfl⟩ : ∃ n, max_retries = n + 1 := ⟨max_retries - 1, by omega⟩
  have hnotge : ¬ 400 ≤ s := by omega
  refine ⟨?_, ?_, ?_, ?_⟩
  · intro h0
    simp [get_avg_close_price, fetchLoop, h0, attemptStep, hne, hnotge]
  · intro h0
    simp [get_avg_close_price, fetchLoop, h0, attemptStep, hne, hnotge]
  · intro closes h0 hall
    rcases closes with _ | ⟨c, cs⟩
    · simp [get_avg_close_price, fetchLoop, h0, attemptStep, hne, hnotge]
    · simp [get_avg_close_price, fetchLoop, h0, attemptStep, hne, hnotge, hall]
  · intro closes h0 hsome
    have hclosesne : closes ≠ [] := by
      intro hc
      exact hsome (by simp [hc])
    simp [get_avg_close_price, fetchLoop, h0, attemptStep, hne, hnotge,
      hclosesne, hsome]

/-- C4, witness: candle closes `[1, null, 3]` average to 2. -/
theorem get_avg_close_price_success_path_witness :
    get_avg_close_price
      (fun _ => FetchAttempt.http 200 (JsonBody.candles [some 1, none, some 3])) 3 1 =
      ([], some 2) := by
  have h := (get_avg_close_price_success_path
      (fun _ => FetchAttempt.http 200 (JsonBody.candles [some 1, none, some 3]))
      3 1 200 (by norm_num) (by norm_num) (by norm_num)).2.2.2
      [some 1, none, some 3] rfl (by simp)
  rw [h]
  norm_num [List.filterMap_cons]

/-- C5: one bulk load fetches every registry asset exactly once, in insertion
order; writes each result (including `None`) into the cache with no retry at
this layer; sleeps `delay` between successive assets but not after the last;
and in the returned snapshot every supported asset id is a key, bound to the
single fetch result for that id. -/
theorem fetch_all_supported_assets_behavior :
    ∀ (fetch : ℕ → Option ℚ) (delay : ℚ) (cache : Cache),
      (fetch_all_supported_assets fetch delay cache).1 = SUPPORTED_ASSETS.map Prod.snd ∧
      (SUPPORTED_ASSETS.map Prod.snd).Nodup ∧
      (fetch_all_supported_assets fetch delay cache).2.1 =
        List.replicate (SUPPORTED_ASSETS.length - 1) delay ∧
      ∀ a ∈ SUPPORTED_ASSET_IDS,
        cacheLookup (fetch_all_supported_assets fetch delay cache).2.2 a =
          some (fetch a) := by
  intro fetch delay cache
  refine ⟨fetchAllGo_calls fetch delay _ _ 1 cache, by decide, ?_, ?_⟩
  · exact fetchAllGo_sleeps fetch delay SUPPORTED_ASSETS.length SUPPORTED_ASSETS 1 cache
      (by omega) (le_refl 1)
  · intro a ha
    exact fetchAllGo_lookup_mem fetch delay _ SUPPORTED_ASSETS 1 cache a
      (by simpa [SUPPORTED_ASSET_IDS, List.mem_toFinset] using ha) (by decide)

/-- C5, witness: with the constant-`none` fetch oracle and delay 1, the calls,
pacing sleeps and the cache entry of asset id 312769 (usdt) are as stated. -/
theorem fetch_all_supported_assets_behavior_witness :
    (312769 ∈ SUPPORTED_ASSET_IDS) ∧
    (fetch_all_supported_assets (fun _ => none) 1 []).2.1 =
      List.replicate (SUPPORTED_ASSETS.length - 1) 1 ∧
    cacheLookup (fetch_all_supported_assets (fun _ => none) 1 []).2.2 312769 =
      some none :=
  ⟨by decide,
   (fetch_all_supported_assets_behavior (fun _ => none) 1 []).2.2.1,
   (fetch_all_supported_assets_behavior (fun _ => none) 1 []).2.2.2 312769 (by decide)⟩

/-- C6: `get_cached_avg_price` is a pure lookup (the embedding takes no fetch
oracle, as the source touches only the dict): an absent key returns `None`, a
key present with value `None` returns `None`, the pristine (pre-bulk-load)
cache returns `None` for every id, and so does any cache after
`clear_price_cache`. -/
theorem get_cached_avg_price_pure_lookup :
    ∀ (cache : Cache) (a : ℕ),
      (cacheLookup cache a = none → get_cached_avg_price cache a = none) ∧
      (cacheLookup cache a = some none → get_cached_avg_price cache a = none) ∧
      get_cached_avg_price ([] : Cache) a = none ∧
      get_cached_avg_price (clear_price_cache cache) a = none := by
  intro cache a
  refine ⟨fun h => ?_, fun h => ?_, rfl, rfl⟩
  · simp [get_cached_avg_price, h]
  · simp [get_cached_avg_price, h]

/-- C6, witness: a cache holding id 1 with value `None` yields `None`. -/
theorem get_cached_avg_price_pure_lookup_witness :
    cacheLookup [((1 : ℕ), (none : Option ℚ))] 1 = some none ∧
    get_cached_avg_price [((1 : ℕ), (none : Option ℚ))] 1 = none :=
  ⟨rfl, (get_cached_avg_price_pure_lookup [((1 : ℕ), (none : Option ℚ))] 1).2.1 rfl⟩

/-- C7: for every pair of valid dates, `date_to_unix_timestamp` returns the
midnight-UTC timestamp of the start date, and the timestamp of 23:59:59 UTC
of the end date — equivalently, midnight UTC of the calendar day after the
end date, minus one second. -/
theorem date_to_unix_timestamp_range (start_date end_date : Date)
    (_h1 : ValidDate start_date) (h2 : ValidDate end_date) :
    (date_to_unix_timestamp start_date end_date).1 = timestampOfMidnight start_date ∧
    (date_to_unix_timestamp start_date end_date).2 =
      timestampOfDateTime end_date 23 59 59 ∧
    (date_to_unix_timestamp start_date end_date).2 =
      timestampOfMidnight (nextDay end_date) - 1 := by
  refine ⟨rfl, ?_, ?_⟩
  · simp only [date_to_unix_timestamp, timestampOfDateTime]
    push_cast
    ring
  · simp only [date_to_unix_timestamp, timestampOfMidnight, toordinal_nextDay end_date h2]
    push_cast
    ring

/-- C7, witness at the leap-day range 2024-01-01 .. 2024-02-29: the end
timestamp is one second before midnight of 2024-03-01. -/
theorem date_to_unix_timestamp_range_witness :
    ValidDate ⟨2024, 1, 1⟩ ∧ ValidDate ⟨2024, 2, 29⟩ ∧
    (date_to_unix_timestamp ⟨2024, 1, 1⟩ ⟨2024, 2, 29⟩).2 =
      timestampOfMidnight (nextDay ⟨2024, 2, 29⟩) - 1 ∧
    date_to_unix_timestamp ⟨2024, 1, 1⟩ ⟨2024, 2, 29⟩ = (1704067200, 1709251199) :=
  ⟨by decide, by decide,
   (date_to_unix_timestamp_range ⟨2024, 1, 1⟩ ⟨2024, 2, 29⟩ (by decide) (by decide)).2.2,
   by decide⟩

/-- C8: for every supported asset id lying in no special-case set, `normalize`
multiplies the raw amount by the cached price, and a missing (`None`/absent)
cache entry makes it return the explicit missing-value marker `none` — never
a silently substituted 0 or 1. -/
theorem normalize_generic (cache : Cache) (wv : ℕ → ℚ → Option ℚ) (a : ℕ)
    (raw : ℚ) (hsup : a ∈ SUPPORTED_ASSET_IDS)
    (hn1 : a ≠ ASSET_KEEP_NATIVE) (hn2 : a ≠ ASSET_USE_USDC)
    (hn3 : a ≠ ASSET_USE_USDC_SCALED) (hn4 : a ∉ WC_ASSETS) :
    normalize cache wv a raw = (get_cached_avg_price cache a).map (fun p => raw * p) ∧
    (get_cached_avg_price cache a = none → normalize cache wv a raw = none) ∧
    ∀ p : ℚ, get_cached_avg_price cache a = some p →
      normalize cache wv a raw = some (raw * p) := by
  have hbase : normalize cache wv a raw =
      (get_cached_avg_price cache a).map (fun p => raw * p) := by
    simp [normalize, hn1, hn2, hn3, hn4, hsup]
  refine ⟨hbase, fun h => ?_, fun p h => ?_⟩
  · rw [hbase, h]; rfl
  · rw [hbase, h]; rfl

/-- C8, witness at the generic supported asset 31566704 (usdc): a cached
price of 1/4 multiplies, and the empty cache yields the `none` marker. -/
theorem normalize_generic_witness :
    (31566704 ∈ SUPPORTED_ASSET_IDS) ∧
    normalize [(31566704, some ((1 : ℚ) / 4))] (fun _ _ => none) 31566704 8 =
      some (8 * (1 / 4)) ∧
    normalize [] (fun _ _ => none) 31566704 8 = none :=
  ⟨by decide,
   (normalize_generic [(31566704, some ((1 : ℚ) / 4))] (fun _ _ => none) 31566704 8
      (by decide) (by decide) (by decide) (by decide) (by decide)).2.2 (1 / 4) rfl,
   (normalize_generic [] (fun _ _ => none) 31566704 8
      (by decide) (by decide) (by decide) (by decide) (by decide)).2.1 rfl⟩

/-- C9: the four special-case id sets (native-keep, USDC-priced, fixed-scaled,
wrapped) are pairwise disjoint, so every asset id lies in at most one of them. -/
theorem special_case_sets_disjoint :
    Disjoint nativeKeepSet usdcPricedSet ∧ Disjoint nativeKeepSet fixedScaledSet ∧
    Disjoint nativeKeepSet wrappedSet ∧ Disjoint usdcPricedSet fixedScaledSet ∧
    Disjoint usdcPricedSet wrappedSet ∧ Disjoint fixedScaledSet wrappedSet ∧
    ∀ a : ℕ,
      (if a ∈ nativeKeepSet then 1 else 0) + (if a ∈ usdcPricedSet then 1 else 0) +
        (if a ∈ fixedScaledSet then 1 else 0) + (if a ∈ wrappedSet then 1 else 0) ≤ 1 := by
  refine ⟨by decide, by decide, by decide, by decide, by decide, by decide, ?_⟩
  intro a
  simp only [nativeKeepSet, usdcPricedSet, fixedScaledSet, wrappedSet, WC_ASSETS,
    ASSET_KEEP_NATIVE, ASSET_USE_USDC, ASSET_USE_USDC_SCALED,
    Finset.mem_singleton, List.mem_toFinset, List.mem_cons, List.not_mem_nil, or_false]
  split_ifs <;> omega

/-- C10: `calculate_fee_rate` does not alter its input frame — the embedding
is pure, mirroring the `df = df.copy()` of the source — and the frame it returns
carries every original column unchanged, adding only the rowwise `fee_rate`
column. -/
theorem calculate_fee_rate_preserves_input :
    ∀ (α : Type) (df : DataFrame α),
      (calculate_fee_rate df).toDataFrame = df ∧
      (calculate_fee_rate df).amount = df.amount ∧
      (calculate_fee_rate df).fee_computed = df.fee_computed ∧
      (calculate_fee_rate df).other = df.other ∧
      (calculate_fee_rate df).fee_rate =
        List.zipWith fee_rate_record df.amount df.fee_computed :=
  fun _ _ => ⟨rfl, rfl, rfl, rfl, rfl⟩

end AccountClassification
